import Mathlib

/-!
# Dymension hub: hook dispatch, lockup message validation, ante options

A shallow embedding of three source files:

* `x/delayedack/types/hooks.go`: the `DelayedAckHooks` interface and the
  `MultiDelayedAckHooks` dispatcher;
* `x/lockup/types/msgs.go`: the `ValidateBasic` methods of the lockup messages;
* `app/ante/ante_options.go`: `HandlerOptions.validate`.

Go code that acts on the chain state reached through `sdk.Context` is embedded
as explicit state passing: a callback takes the state `σ` and returns the new
state, together with its `error` result (`none` is Go's `nil`).  In the
interface `DelayedAckHooks` below a callback is a total function.  For
`AfterPacketDeleted`, which has no error result, a second embedding lets a
callback end in a Go panic as well (section "Callbacks that may panic").
-/

set_option autoImplicit false

namespace Delayedack

/-! ## `x/delayedack/types/hooks.go` -/

/-- The interface `DelayedAckHooks` (hooks.go, lines 9-12).  `Ctx` is the value
of `sdk.Context` handed over, `Pkt` the `*commontypes.RollappPacket` pointer,
`Err` the non-nil values of Go's `error`, and `σ` the state the callbacks act
on. -/
structure DelayedAckHooks (Ctx Pkt Err σ : Type) where
  AfterPacketStatusUpdated : Ctx → Pkt → String → String → σ → Option Err × σ
  AfterPacketDeleted : Ctx → Pkt → σ → σ

/-- The slice type `MultiDelayedAckHooks []DelayedAckHooks` (hooks.go, line 14). -/
abbrev MultiDelayedAckHooks (Ctx Pkt Err σ : Type) : Type :=
  List (DelayedAckHooks Ctx Pkt Err σ)

variable {Ctx Pkt Err σ : Type}

/-- The constructor `NewMultiDelayedAckHooks(hooks ...DelayedAckHooks)`
(hooks.go, lines 18-20): the variadic arguments are returned as the slice. -/
def NewMultiDelayedAckHooks (hooks : List (DelayedAckHooks Ctx Pkt Err σ)) :
    MultiDelayedAckHooks Ctx Pkt Err σ :=
  hooks

/-- The method `MultiDelayedAckHooks.AfterPacketStatusUpdated` (hooks.go, lines
22-30): the loop `for i := range h` calls `h[i]` and returns its error at once
when it is not nil; after the last listener the result is `nil`. -/
def MultiDelayedAckHooks.AfterPacketStatusUpdated :
    MultiDelayedAckHooks Ctx Pkt Err σ → Ctx → Pkt → String → String → σ → Option Err × σ
  | [], _, _, _, _, s => (none, s)
  | l :: rest, ctx, packet, oldPacketKey, newPacketKey, s =>
    match l.AfterPacketStatusUpdated ctx packet oldPacketKey newPacketKey s with
    | (some err, s') => (some err, s')
    | (none, s') =>
      MultiDelayedAckHooks.AfterPacketStatusUpdated rest ctx packet oldPacketKey newPacketKey s'

/-- The method `MultiDelayedAckHooks.AfterPacketDeleted` (hooks.go, lines
32-36): the loop calls every `h[i]` in turn; the method has no result. -/
def MultiDelayedAckHooks.AfterPacketDeleted :
    MultiDelayedAckHooks Ctx Pkt Err σ → Ctx → Pkt → σ → σ
  | [], _, _, s => s
  | l :: rest, ctx, rollappPacket, s =>
    MultiDelayedAckHooks.AfterPacketDeleted rest ctx rollappPacket
      (l.AfterPacketDeleted ctx rollappPacket s)

/-- The assertion `var _ DelayedAckHooks = MultiDelayedAckHooks{}` (hooks.go,
line 16): a dispatcher is itself a listener. -/
def MultiDelayedAckHooks.toDelayedAckHooks (h : MultiDelayedAckHooks Ctx Pkt Err σ) :
    DelayedAckHooks Ctx Pkt Err σ where
  AfterPacketStatusUpdated := MultiDelayedAckHooks.AfterPacketStatusUpdated h
  AfterPacketDeleted := MultiDelayedAckHooks.AfterPacketDeleted h

/-- The listener `BaseDelayedAckHook` (hooks.go, lines 38-47): both callbacks do
nothing, the first returns `nil`. -/
def BaseDelayedAckHook : DelayedAckHooks Ctx Pkt Err σ where
  AfterPacketStatusUpdated := fun _ _ _ _ s => (none, s)
  AfterPacketDeleted := fun _ _ s => s

/-! ### Observing the calls a dispatcher makes

The calls are observed from the listeners' side: a listener is wrapped so that
it writes down the arguments it received before it runs.  The dispatcher under
test stays the one above. -/

/-- One call received by a listener: who received it and with which arguments. -/
inductive Call (Ctx Pkt : Type) where
  | statusUpdated (listener : Nat) (ctx : Ctx) (packet : Pkt)
      (oldPacketKey newPacketKey : String)
  | deleted (listener : Nat) (ctx : Ctx) (rollappPacket : Pkt)
  deriving DecidableEq, Repr

/-- The listener `l` under observation: it behaves like `l` on the state and
appends to the log each call it receives, with the arguments it was given. -/
def observe (name : Nat) (l : DelayedAckHooks Ctx Pkt Err σ) :
    DelayedAckHooks Ctx Pkt Err (σ × List (Call Ctx Pkt)) where
  AfterPacketStatusUpdated := fun ctx packet oldKey newKey st =>
    ((l.AfterPacketStatusUpdated ctx packet oldKey newKey st.1).1,
      ((l.AfterPacketStatusUpdated ctx packet oldKey newKey st.1).2,
        st.2 ++ [Call.statusUpdated name ctx packet oldKey newKey]))
  AfterPacketDeleted := fun ctx packet st =>
    (l.AfterPacketDeleted ctx packet st.1, st.2 ++ [Call.deleted name ctx packet])

/-- The listeners of a list under observation, numbered `k`, `k+1`, ... in list
order. -/
def observeFrom : Nat → List (DelayedAckHooks Ctx Pkt Err σ) →
    List (DelayedAckHooks Ctx Pkt Err (σ × List (Call Ctx Pkt)))
  | _, [] => []
  | k, l :: rest => observe k l :: observeFrom (k + 1) rest

/-- The listeners of a list under observation, each named by its index. -/
def observeAll (h : List (DelayedAckHooks Ctx Pkt Err σ)) :
    List (DelayedAckHooks Ctx Pkt Err (σ × List (Call Ctx Pkt))) :=
  observeFrom 0 h

/-- The calls made by `MultiDelayedAckHooks.AfterPacketStatusUpdated`, in the
order the listeners received them. -/
def statusUpdatedCalls (h : MultiDelayedAckHooks Ctx Pkt Err σ) (ctx : Ctx) (packet : Pkt)
    (oldPacketKey newPacketKey : String) (s : σ) : List (Call Ctx Pkt) :=
  (MultiDelayedAckHooks.AfterPacketStatusUpdated (observeAll h) ctx packet
    oldPacketKey newPacketKey (s, [])).2.2

/-- The calls made by `MultiDelayedAckHooks.AfterPacketDeleted`, in the order
the listeners received them. -/
def deletedCalls (h : MultiDelayedAckHooks Ctx Pkt Err σ) (ctx : Ctx) (rollappPacket : Pkt)
    (s : σ) : List (Call Ctx Pkt) :=
  (MultiDelayedAckHooks.AfterPacketDeleted (observeAll h) ctx rollappPacket (s, [])).2

/-! ### The listeners run in list order -/

/-- The state in which listener number `k` is entered when the listeners'
`AfterPacketStatusUpdated` callbacks are run one after the other in list
order. -/
def stateBefore (h : List (DelayedAckHooks Ctx Pkt Err σ)) (ctx : Ctx) (packet : Pkt)
    (oldPacketKey newPacketKey : String) (s : σ) (k : Nat) : σ :=
  (h.take k).foldl
    (fun st l => (l.AfterPacketStatusUpdated ctx packet oldPacketKey newPacketKey st).2) s

/-- The error result of listener number `k` when the listeners are run in list
order (`none` when it returns `nil`, and for an index past the end). -/
def errAt (h : List (DelayedAckHooks Ctx Pkt Err σ)) (ctx : Ctx) (packet : Pkt)
    (oldPacketKey newPacketKey : String) (s : σ) (k : Nat) : Option Err :=
  match h[k]? with
  | none => none
  | some l =>
    (l.AfterPacketStatusUpdated ctx packet oldPacketKey newPacketKey
      (stateBefore h ctx packet oldPacketKey newPacketKey s k)).1

/-- The index `i` is the least one whose listener returns a non-nil error when
the listeners are run in list order. -/
def IsFirstFailure (h : List (DelayedAckHooks Ctx Pkt Err σ)) (ctx : Ctx) (packet : Pkt)
    (oldPacketKey newPacketKey : String) (s : σ) (i : Nat) : Prop :=
  i < h.length ∧ errAt h ctx packet oldPacketKey newPacketKey s i ≠ none ∧
    ∀ j, j < i → errAt h ctx packet oldPacketKey newPacketKey s j = none

/-- The state left behind by the `AfterPacketDeleted` callbacks of all listeners
run in list order. -/
def deletedState (h : List (DelayedAckHooks Ctx Pkt Err σ)) (ctx : Ctx) (rollappPacket : Pkt)
    (s : σ) : σ :=
  h.foldl (fun st l => l.AfterPacketDeleted ctx rollappPacket st) s

/-! ### A dispatcher of dispatchers -/

/-- The dispatcher `NewMultiDelayedAckHooks(NewMultiDelayedAckHooks(xs...),
NewMultiDelayedAckHooks(ys...))`: its two listeners are themselves dispatchers. -/
def nestedHooks (xs ys : List (DelayedAckHooks Ctx Pkt Err σ)) :
    MultiDelayedAckHooks Ctx Pkt Err σ :=
  NewMultiDelayedAckHooks
    [(NewMultiDelayedAckHooks xs).toDelayedAckHooks,
      (NewMultiDelayedAckHooks ys).toDelayedAckHooks]

/-- The dispatcher `nestedHooks xs ys` with its leaf listeners under observation,
each named by its place in `xs ++ ys`. -/
def nestedObserved (xs ys : List (DelayedAckHooks Ctx Pkt Err σ)) :
    MultiDelayedAckHooks Ctx Pkt Err (σ × List (Call Ctx Pkt)) :=
  nestedHooks (observeFrom 0 xs) (observeFrom xs.length ys)

/-- The calls the leaf listeners receive from `AfterPacketStatusUpdated` on the
dispatcher of dispatchers, in the order they receive them. -/
def nestedStatusUpdatedCalls (xs ys : List (DelayedAckHooks Ctx Pkt Err σ)) (ctx : Ctx)
    (packet : Pkt) (oldPacketKey newPacketKey : String) (s : σ) : List (Call Ctx Pkt) :=
  (MultiDelayedAckHooks.AfterPacketStatusUpdated (nestedObserved xs ys) ctx packet
    oldPacketKey newPacketKey (s, [])).2.2

/-- The calls the leaf listeners receive from `AfterPacketDeleted` on the
dispatcher of dispatchers, in the order they receive them. -/
def nestedDeletedCalls (xs ys : List (DelayedAckHooks Ctx Pkt Err σ)) (ctx : Ctx)
    (rollappPacket : Pkt) (s : σ) : List (Call Ctx Pkt) :=
  (MultiDelayedAckHooks.AfterPacketDeleted (nestedObserved xs ys) ctx rollappPacket (s, [])).2

/-- A sample listener over a counter state: both callbacks add `d` to the
counter, and `AfterPacketStatusUpdated` returns `nil`. -/
def addHook (d : Nat) : DelayedAckHooks Unit Nat String Nat where
  AfterPacketStatusUpdated := fun _ _ _ _ s => (none, s + d)
  AfterPacketDeleted := fun _ _ s => s + d

/-- A sample listener over a counter state: `AfterPacketStatusUpdated` returns
the error `msg` and leaves the counter alone; `AfterPacketDeleted` does nothing. -/
def failHook (msg : String) : DelayedAckHooks Unit Nat String Nat where
  AfterPacketStatusUpdated := fun _ _ _ _ s => (some msg, s)
  AfterPacketDeleted := fun _ _ s => s

/-- A sample listener over a counter state whose result depends on the state:
`AfterPacketStatusUpdated` fails once the counter has reached `limit`. -/
def limitHook (limit : Nat) : DelayedAckHooks Unit Nat String Nat where
  AfterPacketStatusUpdated := fun _ _ _ _ s =>
    if limit ≤ s then (some "limit reached", s) else (none, s)
  AfterPacketDeleted := fun _ _ s => s

/-! ### Callbacks that may panic

A Go call either returns or panics.  `MultiDelayedAckHooks.AfterPacketDeleted`
(hooks.go, lines 32-36) has no `recover`, so a panic raised by `h[i]` leaves
the loop and the method at once.  What the callback wrote before it panicked
stays written. -/

/-- The way a Go call ends, with the state it leaves: it returned, or it
panicked. -/
inductive Outcome (σ : Type) where
  | returned (s : σ)
  | panicked (s : σ)
  deriving DecidableEq, Repr

/-- The state a call leaves. -/
def Outcome.state : Outcome σ → σ
  | Outcome.returned s => s
  | Outcome.panicked s => s

/-- Whether a call ended in a panic. -/
def Outcome.isPanic : Outcome σ → Bool
  | Outcome.returned _ => false
  | Outcome.panicked _ => true

/-- The `AfterPacketDeleted` method of a listener (hooks.go, line 11) as Go runs
it: a call that returns or panics. -/
abbrev DeletedCallback (Ctx Pkt σ : Type) : Type :=
  Ctx → Pkt → σ → Outcome σ

/-- The `AfterPacketDeleted` method of a listener whose callback is total: it
returns. -/
def DelayedAckHooks.deletedCallback (l : DelayedAckHooks Ctx Pkt Err σ) :
    DeletedCallback Ctx Pkt σ :=
  fun ctx rollappPacket s => Outcome.returned (l.AfterPacketDeleted ctx rollappPacket s)

/-- A `nil` entry of the slice: the call `h[i].AfterPacketDeleted(...)` on a nil
interface value panics before anything is written. -/
def nilListener : DeletedCallback Ctx Pkt σ :=
  fun _ _ s => Outcome.panicked s

/-- The method `MultiDelayedAckHooks.AfterPacketDeleted` (hooks.go, lines 32-36)
over callbacks that may panic: the loop calls `h[i]` in turn; when a call
panics the panic leaves the method, and the listeners after it are not
reached. -/
def MultiDelayedAckHooks.AfterPacketDeletedOrPanic :
    List (DeletedCallback Ctx Pkt σ) → Ctx → Pkt → σ → Outcome σ
  | [], _, _, s => Outcome.returned s
  | l :: rest, ctx, rollappPacket, s =>
    match l ctx rollappPacket s with
    | Outcome.returned s' =>
      MultiDelayedAckHooks.AfterPacketDeletedOrPanic rest ctx rollappPacket s'
    | Outcome.panicked s' => Outcome.panicked s'

/-- A callback under observation: the call it receives is appended to the log
as it is entered, whether it then returns or panics. -/
def observeDeleted (name : Nat) (l : DeletedCallback Ctx Pkt σ) :
    DeletedCallback Ctx Pkt (σ × List (Call Ctx Pkt)) :=
  fun ctx rollappPacket st =>
    match l ctx rollappPacket st.1 with
    | Outcome.returned s' => Outcome.returned (s', st.2 ++ [Call.deleted name ctx rollappPacket])
    | Outcome.panicked s' => Outcome.panicked (s', st.2 ++ [Call.deleted name ctx rollappPacket])

/-- The callbacks of a list under observation, numbered `k`, `k+1`, ... in list
order. -/
def observeDeletedFrom : Nat → List (DeletedCallback Ctx Pkt σ) →
    List (DeletedCallback Ctx Pkt (σ × List (Call Ctx Pkt)))
  | _, [] => []
  | k, l :: rest => observeDeleted k l :: observeDeletedFrom (k + 1) rest

/-- The calls made by `AfterPacketDeleted` over callbacks that may panic, in the
order the listeners received them. -/
def deletedCallsOrPanic (h : List (DeletedCallback Ctx Pkt σ)) (ctx : Ctx)
    (rollappPacket : Pkt) (s : σ) : List (Call Ctx Pkt) :=
  (MultiDelayedAckHooks.AfterPacketDeletedOrPanic (observeDeletedFrom 0 h) ctx rollappPacket
    (s, [])).state.2

/-- The state in which callback number `k` is entered when the callbacks are
run one after the other in list order. -/
def deletedStateBefore (h : List (DeletedCallback Ctx Pkt σ)) (ctx : Ctx)
    (rollappPacket : Pkt) (s : σ) (k : Nat) : σ :=
  (h.take k).foldl (fun st l => (l ctx rollappPacket st).state) s

/-- Whether callback number `k` panics when the callbacks are run in list order
(false for an index past the end). -/
def panicsAt (h : List (DeletedCallback Ctx Pkt σ)) (ctx : Ctx) (rollappPacket : Pkt)
    (s : σ) (k : Nat) : Bool :=
  match h[k]? with
  | none => false
  | some l => (l ctx rollappPacket (deletedStateBefore h ctx rollappPacket s k)).isPanic

end Delayedack

namespace Sdk

/-! ## What the two other files use of the cosmos-sdk library

The library is not part of the repository.  Its error values and the methods of
`sdk.Coins` that the repository calls are embedded here from their library
definitions; bech32 decoding and denomination syntax are left as parameters of
the functions that need them. -/

/-- The registered errors of `cosmos-sdk/types/errors` that the sources name. -/
inductive Registered where
  | ErrInvalidAddress
  | ErrInvalidRequest
  | ErrInvalidCoins
  | ErrLogic
  deriving DecidableEq, Repr

/-- The non-nil values of Go's `error` that the sources build: a registered error
wrapped by `errorsmod.Wrap` or `errorsmod.Wrapf`, or a fresh `fmt.Errorf` error.
The text kept is the description or format string as written in the source; its
arguments are not rendered. -/
inductive Error where
  | wrap (root : Registered) (description : String)
  | errorf (format : String)
  deriving DecidableEq, Repr

/-- The registered error an error value wraps, if any (what `errors.Is` finds). -/
def Error.root : Error → Option Registered
  | Error.wrap r _ => some r
  | Error.errorf _ => none

/-- The type `sdk.AccAddress`: the decoded address bytes. -/
abbrev AccAddress : Type := List Nat

/-- The type `sdk.Coin`: a denomination and an amount (`math.Int`, an integer of
any size and sign; the zero value of `math.Int` that holds no integer at all is
outside the embedding). -/
structure Coin where
  Denom : String
  Amount : Int
  deriving DecidableEq, Repr

/-- The type `sdk.Coins`, a slice of coins. -/
abbrev Coins : Type := List Coin

/-- Library method `Coin.IsPositive`: `coin.Amount.Sign() == 1`. -/
def Coin.IsPositive (coin : Coin) : Bool :=
  decide (0 < coin.Amount)

/-- Library method `Coins.Len`: `len(coins)`. -/
def Coins.Len (coins : Coins) : Nat :=
  coins.length

/-- Library method `Coins.Empty`: `len(coins) == 0`. -/
def Coins.Empty (coins : Coins) : Bool :=
  coins.length == 0

/-- Library method `Coins.IsAllPositive`: false for the empty set; otherwise
the loop returns false at the first coin that is not positive, and true after
the last one. -/
def Coins.IsAllPositive (coins : Coins) : Bool :=
  if coins.length == 0 then false else coins.all Coin.IsPositive

/-- The loop of library method `Coins.Validate` over `coins[1:]`: every
denomination is well formed, strictly above the one before it (`lowDenom`), and
every amount is positive.  Go compares strings byte by byte, which on UTF-8
text is the order of the character lists. -/
def Coins.validateRest (validDenom : String → Bool) : String → List Coin → Bool
  | _, [] => true
  | lowDenom, coin :: rest =>
    if !validDenom coin.Denom then false
    else if coin.Denom.toList < lowDenom.toList then false
    else if coin.Denom == lowDenom then false
    else if !coin.IsPositive then false
    else Coins.validateRest validDenom coin.Denom rest

/-- Library method `Coins.IsValid`, that is `coins.Validate() == nil`: the empty
set is valid; a first coin needs a well-formed denomination (`ValidateDenom`,
here the parameter `validDenom`) and a positive amount; the coins after it are
checked by the loop. -/
def Coins.IsValid (validDenom : String → Bool) : Coins → Bool
  | [] => true
  | coin :: rest =>
    if !validDenom coin.Denom then false
    else if !coin.IsPositive then false
    else Coins.validateRest validDenom coin.Denom rest

end Sdk

namespace Lockup

open Sdk

/-! ## `x/lockup/types/msgs.go`

The message structs are generated code; their fields are taken from the
constructors `NewMsg...` of the file.  `time.Duration` is a signed integer and
`uint64` a natural number.  Each `ValidateBasic` takes the library function
`sdk.AccAddressFromBech32` as its first parameter. -/

/-- The message `MsgLockTokens` (fields as set by `NewMsgLockTokens`, lines 33-39). -/
structure MsgLockTokens where
  Owner : String
  Duration : Int
  Coins : Coins
  deriving DecidableEq, Repr

/-- The message `MsgBeginUnlocking` (fields as set by `NewMsgBeginUnlocking`,
lines 77-83). -/
structure MsgBeginUnlocking where
  Owner : String
  ID : Nat
  Coins : Coins
  deriving DecidableEq, Repr

/-- The message `MsgExtendLockup` (fields as set by `NewMsgExtendLockup`, lines
119-125). -/
structure MsgExtendLockup where
  Owner : String
  ID : Nat
  Duration : Int
  deriving DecidableEq, Repr

/-- The message `MsgForceUnlock` (fields as set by `NewMsgForceUnlock`, lines
155-161). -/
structure MsgForceUnlock where
  Owner : String
  ID : Nat
  Coins : Coins
  deriving DecidableEq, Repr

/-- The method `MsgLockTokens.ValidateBasic` (msgs.go, lines 43-63). -/
def MsgLockTokens.ValidateBasic (AccAddressFromBech32 : String → Except String AccAddress)
    (m : MsgLockTokens) : Option Error :=
  match AccAddressFromBech32 m.Owner with
  | Except.error _ => some (Error.wrap Registered.ErrInvalidAddress "Invalid owner address (%s)")
  | Except.ok _ =>
    if m.Duration ≤ 0 then
      some (Error.errorf "duration should be positive: %d < 0")
    -- we only allow locks with one denom for now
    else if m.Coins.Len ≠ 1 then
      some (Error.errorf "lockups can only have one denom per lock ID, got %v")
    else if !m.Coins.IsAllPositive then
      some (Error.errorf "cannot lock up a zero or negative amount")
    else none

/-- The method `MsgBeginUnlocking.ValidateBasic` (msgs.go, lines 87-107). -/
def MsgBeginUnlocking.ValidateBasic (AccAddressFromBech32 : String → Except String AccAddress)
    (m : MsgBeginUnlocking) : Option Error :=
  match AccAddressFromBech32 m.Owner with
  | Except.error _ => some (Error.wrap Registered.ErrInvalidAddress "Invalid owner address (%s)")
  | Except.ok _ =>
    if m.ID = 0 then
      some (Error.errorf "invalid lockup ID, got %v")
    -- only allow unlocks with a single denom or empty
    else if m.Coins.Len > 1 then
      some (Error.errorf "can only unlock one denom per lock ID, got %v")
    else if !m.Coins.Empty && !m.Coins.IsAllPositive then
      some (Error.errorf "cannot unlock a zero or negative amount")
    else none

/-- The method `MsgExtendLockup.ValidateBasic` (msgs.go, lines 129-141). -/
def MsgExtendLockup.ValidateBasic (AccAddressFromBech32 : String → Except String AccAddress)
    (m : MsgExtendLockup) : Option Error :=
  match AccAddressFromBech32 m.Owner with
  | Except.error _ => some (Error.wrap Registered.ErrInvalidAddress "Invalid owner address (%s)")
  | Except.ok _ =>
    if m.ID = 0 then
      some (Error.errorf "id is empty")
    else if m.Duration ≤ 0 then
      some (Error.errorf "duration should be positive: %d < 0")
    else none

/-- The method `MsgForceUnlock.ValidateBasic` (msgs.go, lines 165-179); the
second parameter is the library function `sdk.ValidateDenom` used by
`Coins.IsValid`. -/
def MsgForceUnlock.ValidateBasic (AccAddressFromBech32 : String → Except String AccAddress)
    (validDenom : String → Bool) (m : MsgForceUnlock) : Option Error :=
  match AccAddressFromBech32 m.Owner with
  | Except.error _ => some (Error.wrap Registered.ErrInvalidAddress "Invalid owner address (%s)")
  | Except.ok _ =>
    if m.ID ≤ 0 then
      some (Error.wrap Registered.ErrInvalidRequest "lock id should be bigger than 1 (%s)")
    else if !m.Coins.IsValid validDenom then
      some (Error.wrap Registered.ErrInvalidCoins "%s")
    else none

/-- A stand-in for `sdk.AccAddressFromBech32` on which the examples are
evaluated: it decodes the one string `dym1owner` and rejects every other. -/
def sampleBech32 (s : String) : Except String AccAddress :=
  if s = "dym1owner" then Except.ok [1, 2, 3] else Except.error "decoding bech32 failed"

/-- A stand-in for `sdk.ValidateDenom` on which the examples are evaluated:
a denomination is well formed when it has at least three characters. -/
def sampleDenom (s : String) : Bool :=
  decide (3 ≤ s.length)

end Lockup

namespace Ante

open Sdk

/-! ## `app/ante/ante_options.go` -/

/-- The struct `HandlerOptions` (ante_options.go, lines 27-40).  A field of
pointer or interface type is `none` when it is `nil` and otherwise holds a
reference; `MaxTxGasWanted` is a `uint64` and `RollappKeeper` a struct value,
neither of which can be `nil`. -/
structure HandlerOptions where
  AccountKeeper : Option Nat
  BankKeeper : Option Nat
  IBCKeeper : Option Nat
  FeeMarketKeeper : Option Nat
  EvmKeeper : Option Nat
  FeegrantKeeper : Option Nat
  TxFeesKeeper : Option Nat
  SignModeHandler : Option Nat
  MaxTxGasWanted : Nat
  ExtensionOptionChecker : Option Nat
  RollappKeeper : Nat
  LightClientKeeper : Option Nat
  deriving DecidableEq, Repr

/-- The method `HandlerOptions.validate` (ante_options.go, lines 42-65). -/
def HandlerOptions.validate (options : HandlerOptions) : Option Error :=
  if options.AccountKeeper = none then
    some (Error.wrap Registered.ErrLogic "account keeper is required for AnteHandler")
  else if options.BankKeeper = none then
    some (Error.wrap Registered.ErrLogic "bank keeper is required for AnteHandler")
  else if options.SignModeHandler = none then
    some (Error.wrap Registered.ErrLogic "sign mode handler is required for ante builder")
  else if options.FeeMarketKeeper = none then
    some (Error.wrap Registered.ErrLogic "fee market keeper is required for AnteHandler")
  else if options.EvmKeeper = none then
    some (Error.wrap Registered.ErrLogic "evm keeper is required for AnteHandler")
  else if options.TxFeesKeeper = none then
    some (Error.wrap Registered.ErrLogic "tx fees keeper is required for AnteHandler")
  else if options.LightClientKeeper = none then
    some (Error.wrap Registered.ErrLogic "light client keeper is required for AnteHandler")
  else none

end Ante

/-! # Theorems -/

namespace Delayedack

variable {Ctx Pkt Err σ : Type}

/-! ## Unfolding the dispatcher one listener at a time -/

theorem status_cons_ok (l : DelayedAckHooks Ctx Pkt Err σ)
    (rest : List (DelayedAckHooks Ctx Pkt Err σ)) (ctx : Ctx) (p : Pkt) (o n : String) (s : σ)
    (hok : (l.AfterPacketStatusUpdated ctx p o n s).1 = none) :
    MultiDelayedAckHooks.AfterPacketStatusUpdated (l :: rest) ctx p o n s =
      MultiDelayedAckHooks.AfterPacketStatusUpdated rest ctx p o n
        (l.AfterPacketStatusUpdated ctx p o n s).2 := by
  rcases hr : l.AfterPacketStatusUpdated ctx p o n s with ⟨e, s'⟩
  rw [hr] at hok
  simp only at hok
  subst hok
  simp only [MultiDelayedAckHooks.AfterPacketStatusUpdated, hr]

theorem status_cons_err (l : DelayedAckHooks Ctx Pkt Err σ)
    (rest : List (DelayedAckHooks Ctx Pkt Err σ)) (ctx : Ctx) (p : Pkt) (o n : String) (s : σ)
    (herr : (l.AfterPacketStatusUpdated ctx p o n s).1 ≠ none) :
    MultiDelayedAckHooks.AfterPacketStatusUpdated (l :: rest) ctx p o n s =
      l.AfterPacketStatusUpdated ctx p o n s := by
  rcases hr : l.AfterPacketStatusUpdated ctx p o n s with ⟨e, s'⟩
  rw [hr] at herr
  cases e with
  | none => exact absurd rfl herr
  | some err => simp only [MultiDelayedAckHooks.AfterPacketStatusUpdated, hr]

theorem stateBefore_zero (h : List (DelayedAckHooks Ctx Pkt Err σ)) (ctx : Ctx) (p : Pkt)
    (o n : String) (s : σ) : stateBefore h ctx p o n s 0 = s := by
  simp [stateBefore]

theorem stateBefore_cons_succ (l : DelayedAckHooks Ctx Pkt Err σ)
    (rest : List (DelayedAckHooks Ctx Pkt Err σ)) (ctx : Ctx) (p : Pkt) (o n : String) (s : σ)
    (k : Nat) :
    stateBefore (l :: rest) ctx p o n s (k + 1) =
      stateBefore rest ctx p o n (l.AfterPacketStatusUpdated ctx p o n s).2 k := by
  simp [stateBefore]

theorem errAt_cons_zero (l : DelayedAckHooks Ctx Pkt Err σ)
    (rest : List (DelayedAckHooks Ctx Pkt Err σ)) (ctx : Ctx) (p : Pkt) (o n : String) (s : σ) :
    errAt (l :: rest) ctx p o n s 0 = (l.AfterPacketStatusUpdated ctx p o n s).1 := by
  simp [errAt, stateBefore]

theorem errAt_cons_succ (l : DelayedAckHooks Ctx Pkt Err σ)
    (rest : List (DelayedAckHooks Ctx Pkt Err σ)) (ctx : Ctx) (p : Pkt) (o n : String) (s : σ)
    (k : Nat) :
    errAt (l :: rest) ctx p o n s (k + 1) =
      errAt rest ctx p o n (l.AfterPacketStatusUpdated ctx p o n s).2 k := by
  simp only [errAt, List.getElem?_cons_succ, stateBefore_cons_succ]

theorem errAt_lt_length (h : List (DelayedAckHooks Ctx Pkt Err σ)) (ctx : Ctx) (p : Pkt)
    (o n : String) (s : σ) (k : Nat) (hk : errAt h ctx p o n s k ≠ none) : k < h.length := by
  by_contra hlt
  have hnone : h[k]? = none := List.getElem?_eq_none (by omega)
  exact hk (by simp [errAt, hnone])

/-- A first failure at index `i + 1` of `l :: rest` is a first failure at index
`i` of `rest`, entered in the state `l` leaves behind. -/
theorem firstFailure_tail (l : DelayedAckHooks Ctx Pkt Err σ)
    (rest : List (DelayedAckHooks Ctx Pkt Err σ)) (ctx : Ctx) (p : Pkt) (o n : String) (s : σ)
    (i : Nat) (hf : IsFirstFailure (l :: rest) ctx p o n s (i + 1)) :
    (l.AfterPacketStatusUpdated ctx p o n s).1 = none ∧
      IsFirstFailure rest ctx p o n (l.AfterPacketStatusUpdated ctx p o n s).2 i := by
  obtain ⟨hlen, herr, hmin⟩ := hf
  refine ⟨?_, ?_, ?_, ?_⟩
  · have h0 := hmin 0 (Nat.succ_pos i)
    rwa [errAt_cons_zero] at h0
  · simpa using hlen
  · rwa [errAt_cons_succ] at herr
  · intro j hj
    have hj' := hmin (j + 1) (Nat.succ_lt_succ hj)
    rwa [errAt_cons_succ] at hj'

/-- The result of the dispatcher when listener `i` is the first to fail: its
error, and the state left by listeners `0, ..., i`. -/
theorem status_of_firstFailure (h : List (DelayedAckHooks Ctx Pkt Err σ)) (ctx : Ctx) (p : Pkt)
    (o n : String) (s : σ) (i : Nat) (hf : IsFirstFailure h ctx p o n s i) :
    MultiDelayedAckHooks.AfterPacketStatusUpdated h ctx p o n s =
      (errAt h ctx p o n s i, stateBefore h ctx p o n s (i + 1)) := by
  induction h generalizing s i with
  | nil => exact absurd hf.1 (Nat.not_lt_zero i)
  | cons l rest ih =>
    cases i with
    | zero =>
      have herr : (l.AfterPacketStatusUpdated ctx p o n s).1 ≠ none := by
        have := hf.2.1
        rwa [errAt_cons_zero] at this
      rw [status_cons_err l rest ctx p o n s herr, errAt_cons_zero, stateBefore_cons_succ,
        stateBefore_zero]
    | succ i =>
      obtain ⟨hok, htail⟩ := firstFailure_tail l rest ctx p o n s i hf
      rw [status_cons_ok l rest ctx p o n s hok, ih _ i htail, errAt_cons_succ,
        stateBefore_cons_succ]

/-- The result of the dispatcher when no listener fails: `nil`, and the state
left by all listeners. -/
theorem status_of_allOk (h : List (DelayedAckHooks Ctx Pkt Err σ)) (ctx : Ctx) (p : Pkt)
    (o n : String) (s : σ) (hok : ∀ j, errAt h ctx p o n s j = none) :
    MultiDelayedAckHooks.AfterPacketStatusUpdated h ctx p o n s =
      (none, stateBefore h ctx p o n s h.length) := by
  induction h generalizing s with
  | nil => simp [MultiDelayedAckHooks.AfterPacketStatusUpdated, stateBefore]
  | cons l rest ih =>
    have h0 : (l.AfterPacketStatusUpdated ctx p o n s).1 = none := by
      have := hok 0
      rwa [errAt_cons_zero] at this
    have hrest : ∀ j, errAt rest ctx p o n (l.AfterPacketStatusUpdated ctx p o n s).2 j = none := by
      intro j
      have := hok (j + 1)
      rwa [errAt_cons_succ] at this
    rw [status_cons_ok l rest ctx p o n s h0, ih _ hrest, List.length_cons,
      stateBefore_cons_succ]

/-- When some listener fails in the run in list order, one of them is the first. -/
theorem exists_firstFailure (h : List (DelayedAckHooks Ctx Pkt Err σ)) (ctx : Ctx) (p : Pkt)
    (o n : String) (s : σ) (hex : ∃ i, errAt h ctx p o n s i ≠ none) :
    ∃ i, IsFirstFailure h ctx p o n s i := by
  classical
  refine ⟨Nat.find hex, ?_, Nat.find_spec hex, ?_⟩
  · exact errAt_lt_length h ctx p o n s _ (Nat.find_spec hex)
  · intro j hj
    by_contra hne
    exact Nat.find_min hex hj hne

/-! ## What the observed dispatcher does -/

theorem observe_status_fst (k : Nat) (l : DelayedAckHooks Ctx Pkt Err σ) (ctx : Ctx) (p : Pkt)
    (o n : String) (st : σ × List (Call Ctx Pkt)) :
    ((observe k l).AfterPacketStatusUpdated ctx p o n st).1 =
      (l.AfterPacketStatusUpdated ctx p o n st.1).1 := rfl

theorem observe_status_snd (k : Nat) (l : DelayedAckHooks Ctx Pkt Err σ) (ctx : Ctx) (p : Pkt)
    (o n : String) (st : σ × List (Call Ctx Pkt)) :
    ((observe k l).AfterPacketStatusUpdated ctx p o n st).2 =
      ((l.AfterPacketStatusUpdated ctx p o n st.1).2,
        st.2 ++ [Call.statusUpdated k ctx p o n]) := rfl

/-- Observation does not disturb the listeners: the observed dispatcher returns
the same error and leaves the same state as the plain one. -/
theorem observed_status_result (h : List (DelayedAckHooks Ctx Pkt Err σ)) (k : Nat) (ctx : Ctx)
    (p : Pkt) (o n : String) (s : σ) (log : List (Call Ctx Pkt)) :
    (MultiDelayedAckHooks.AfterPacketStatusUpdated (observeFrom k h) ctx p o n (s, log)).1 =
        (MultiDelayedAckHooks.AfterPacketStatusUpdated h ctx p o n s).1 ∧
      (MultiDelayedAckHooks.AfterPacketStatusUpdated (observeFrom k h) ctx p o n (s, log)).2.1 =
        (MultiDelayedAckHooks.AfterPacketStatusUpdated h ctx p o n s).2 := by
  induction h generalizing k s log with
  | nil => simp [observeFrom, MultiDelayedAckHooks.AfterPacketStatusUpdated]
  | cons l rest ih =>
    by_cases hl : (l.AfterPacketStatusUpdated ctx p o n s).1 = none
    · have hl' : ((observe k l).AfterPacketStatusUpdated ctx p o n (s, log)).1 = none := hl
      rw [observeFrom, status_cons_ok _ _ ctx p o n (s, log) hl',
        status_cons_ok l rest ctx p o n s hl, observe_status_snd]
      exact ih _ _ _
    · have hl' : ((observe k l).AfterPacketStatusUpdated ctx p o n (s, log)).1 ≠ none := hl
      rw [observeFrom, status_cons_err _ _ ctx p o n (s, log) hl',
        status_cons_err l rest ctx p o n s hl]
      exact ⟨rfl, rfl⟩

/-- The calls logged when listener `i` is the first to fail: one call to each
of the listeners `0, ..., i`, in that order, after what the log already held. -/
theorem observed_calls_of_firstFailure (h : List (DelayedAckHooks Ctx Pkt Err σ)) (k : Nat)
    (ctx : Ctx) (p : Pkt) (o n : String) (s : σ) (log : List (Call Ctx Pkt)) (i : Nat)
    (hf : IsFirstFailure h ctx p o n s i) :
    (MultiDelayedAckHooks.AfterPacketStatusUpdated (observeFrom k h) ctx p o n (s, log)).2.2 =
      log ++ (List.range (i + 1)).map (fun j => Call.statusUpdated (k + j) ctx p o n) := by
  induction h generalizing k s log i with
  | nil => exact absurd hf.1 (Nat.not_lt_zero i)
  | cons l rest ih =>
    cases i with
    | zero =>
      have herr : (l.AfterPacketStatusUpdated ctx p o n s).1 ≠ none := by
        have := hf.2.1
        rwa [errAt_cons_zero] at this
      have herr' : ((observe k l).AfterPacketStatusUpdated ctx p o n (s, log)).1 ≠ none := herr
      rw [observeFrom, status_cons_err _ _ ctx p o n (s, log) herr', observe_status_snd]
      simp [List.range_succ]
    | succ i =>
      obtain ⟨hok, htail⟩ := firstFailure_tail l rest ctx p o n s i hf
      have hok' : ((observe k l).AfterPacketStatusUpdated ctx p o n (s, log)).1 = none := hok
      rw [observeFrom, status_cons_ok _ _ ctx p o n (s, log) hok', observe_status_snd,
        ih (k + 1) _ _ i htail, List.range_succ_eq_map (i + 1)]
      simp [Function.comp_def, Nat.add_assoc, Nat.add_comm 1]

/-- The calls logged when no listener fails: one call to each listener, in list
order, after what the log already held. -/
theorem observed_calls_of_allOk (h : List (DelayedAckHooks Ctx Pkt Err σ)) (k : Nat)
    (ctx : Ctx) (p : Pkt) (o n : String) (s : σ) (log : List (Call Ctx Pkt))
    (hok : ∀ j, errAt h ctx p o n s j = none) :
    (MultiDelayedAckHooks.AfterPacketStatusUpdated (observeFrom k h) ctx p o n (s, log)).2.2 =
      log ++ (List.range h.length).map (fun j => Call.statusUpdated (k + j) ctx p o n) := by
  induction h generalizing k s log with
  | nil => simp [observeFrom, MultiDelayedAckHooks.AfterPacketStatusUpdated]
  | cons l rest ih =>
    have h0 : (l.AfterPacketStatusUpdated ctx p o n s).1 = none := by
      have := hok 0
      rwa [errAt_cons_zero] at this
    have hrest : ∀ j, errAt rest ctx p o n (l.AfterPacketStatusUpdated ctx p o n s).2 j = none := by
      intro j
      have := hok (j + 1)
      rwa [errAt_cons_succ] at this
    have h0' : ((observe k l).AfterPacketStatusUpdated ctx p o n (s, log)).1 = none := h0
    rw [observeFrom, status_cons_ok _ _ ctx p o n (s, log) h0', observe_status_snd,
      ih (k + 1) _ _ hrest, List.length_cons, List.range_succ_eq_map rest.length]
    simp [Function.comp_def, Nat.add_assoc, Nat.add_comm 1]

/-- The observed `AfterPacketDeleted` dispatcher: the state is the one the plain
dispatcher leaves, and the log gains one call per listener, in list order. -/
theorem observed_deleted (h : List (DelayedAckHooks Ctx Pkt Err σ)) (k : Nat) (ctx : Ctx)
    (p : Pkt) (s : σ) (log : List (Call Ctx Pkt)) :
    MultiDelayedAckHooks.AfterPacketDeleted (observeFrom k h) ctx p (s, log) =
      (MultiDelayedAckHooks.AfterPacketDeleted h ctx p s,
        log ++ (List.range h.length).map (fun j => Call.deleted (k + j) ctx p)) := by
  induction h generalizing k s log with
  | nil => simp [observeFrom, MultiDelayedAckHooks.AfterPacketDeleted]
  | cons l rest ih =>
    rw [observeFrom, MultiDelayedAckHooks.AfterPacketDeleted,
      MultiDelayedAckHooks.AfterPacketDeleted]
    have hstep : (observe k l).AfterPacketDeleted ctx p (s, log) =
        (l.AfterPacketDeleted ctx p s, log ++ [Call.deleted k ctx p]) := rfl
    rw [hstep, ih (k + 1), List.length_cons, List.range_succ_eq_map rest.length]
    simp [Function.comp_def, Nat.add_assoc, Nat.add_comm 1]

theorem deleted_eq_foldl (h : List (DelayedAckHooks Ctx Pkt Err σ)) (ctx : Ctx) (p : Pkt)
    (s : σ) :
    MultiDelayedAckHooks.AfterPacketDeleted h ctx p s = deletedState h ctx p s := by
  induction h generalizing s with
  | nil => rfl
  | cons l rest ih =>
    rw [MultiDelayedAckHooks.AfterPacketDeleted, ih]
    rfl

/-- The calls of a status dispatch are calls to listeners of the list, each with
the arguments of the dispatch. -/
theorem statusUpdatedCalls_mem (h : List (DelayedAckHooks Ctx Pkt Err σ)) (ctx : Ctx) (p : Pkt)
    (o n : String) (s : σ) (c : Call Ctx Pkt) (hc : c ∈ statusUpdatedCalls h ctx p o n s) :
    ∃ j, j < h.length ∧ c = Call.statusUpdated j ctx p o n := by
  classical
  unfold statusUpdatedCalls observeAll at hc
  by_cases hex : ∃ i, errAt h ctx p o n s i ≠ none
  · obtain ⟨i, hf⟩ := exists_firstFailure h ctx p o n s hex
    rw [observed_calls_of_firstFailure h 0 ctx p o n s [] i hf] at hc
    simp only [List.nil_append, List.mem_map, List.mem_range, Nat.zero_add] at hc
    obtain ⟨j, hj, rfl⟩ := hc
    exact ⟨j, by have := hf.1; omega, rfl⟩
  · have hok : ∀ j, errAt h ctx p o n s j = none := by
      intro j
      by_contra hne
      exact hex ⟨j, hne⟩
    rw [observed_calls_of_allOk h 0 ctx p o n s [] hok] at hc
    simp only [List.nil_append, List.mem_map, List.mem_range, Nat.zero_add] at hc
    obtain ⟨j, hj, rfl⟩ := hc
    exact ⟨j, hj, rfl⟩

/-! ## The claims about the hook dispatcher -/

/-- C1: when listener `i` is the first whose `AfterPacketStatusUpdated` returns
an error in the run in list order, the dispatcher calls exactly the listeners
`0, ..., i`, once each and in that order, and no listener after `i`. -/
theorem statusUpdated_short_circuits (h : MultiDelayedAckHooks Ctx Pkt Err σ) (ctx : Ctx)
    (p : Pkt) (o n : String) (s : σ) (i : Nat) (hf : IsFirstFailure h ctx p o n s i) :
    statusUpdatedCalls h ctx p o n s =
        (List.range (i + 1)).map (fun j => Call.statusUpdated j ctx p o n) ∧
      ∀ j, i < j → ∀ (ctx' : Ctx) (p' : Pkt) (o' n' : String),
        Call.statusUpdated j ctx' p' o' n' ∉ statusUpdatedCalls h ctx p o n s := by
  have hcalls : statusUpdatedCalls h ctx p o n s =
      (List.range (i + 1)).map (fun j => Call.statusUpdated j ctx p o n) := by
    unfold statusUpdatedCalls observeAll
    rw [observed_calls_of_firstFailure h 0 ctx p o n s [] i hf]
    simp
  refine ⟨hcalls, ?_⟩
  intro j hj ctx' p' o' n' hmem
  rw [hcalls] at hmem
  simp only [List.mem_map, List.mem_range] at hmem
  obtain ⟨j', hj', heq⟩ := hmem
  injection heq with hjj
  omega

/-- C1, on the listeners `[A, B]` where `A` fails: only `A` is called. -/
theorem statusUpdated_short_circuits_witness :
    IsFirstFailure [failHook "A failed", addHook 1] () 7 "old" "new" 0 0 ∧
      (statusUpdatedCalls [failHook "A failed", addHook 1] () 7 "old" "new" 0 =
          (List.range (0 + 1)).map (fun j => Call.statusUpdated j () 7 "old" "new") ∧
        ∀ j, 0 < j → ∀ (ctx' : Unit) (p' : Nat) (o' n' : String),
          Call.statusUpdated j ctx' p' o' n' ∉
            statusUpdatedCalls [failHook "A failed", addHook 1] () 7 "old" "new" 0) :=
  ⟨⟨by decide, by decide, fun j hj => absurd hj (Nat.not_lt_zero j)⟩,
    statusUpdated_short_circuits [failHook "A failed", addHook 1] () 7 "old" "new" 0 0
      ⟨by decide, by decide, fun j hj => absurd hj (Nat.not_lt_zero j)⟩⟩

/-- C2: the dispatcher returns an error exactly when some listener returns one
in the run in list order; the error returned is the one of the first failing
listener, unchanged; when no listener fails the result is `nil`. -/
theorem statusUpdated_returns_first_error (h : MultiDelayedAckHooks Ctx Pkt Err σ) (ctx : Ctx)
    (p : Pkt) (o n : String) (s : σ) :
    ((MultiDelayedAckHooks.AfterPacketStatusUpdated h ctx p o n s).1 ≠ none ↔
        ∃ i, errAt h ctx p o n s i ≠ none) ∧
      (∀ i, IsFirstFailure h ctx p o n s i →
        (MultiDelayedAckHooks.AfterPacketStatusUpdated h ctx p o n s).1 =
          errAt h ctx p o n s i) ∧
      ((∀ i, errAt h ctx p o n s i = none) →
        (MultiDelayedAckHooks.AfterPacketStatusUpdated h ctx p o n s).1 = none) := by
  refine ⟨⟨?_, ?_⟩, ?_, ?_⟩
  · intro hne
    by_contra hex
    have hok : ∀ j, errAt h ctx p o n s j = none := by
      intro j
      by_contra hj
      exact hex ⟨j, hj⟩
    rw [status_of_allOk h ctx p o n s hok] at hne
    exact hne rfl
  · intro hex
    obtain ⟨i, hf⟩ := exists_firstFailure h ctx p o n s hex
    rw [status_of_firstFailure h ctx p o n s i hf]
    exact hf.2.1
  · intro i hf
    rw [status_of_firstFailure h ctx p o n s i hf]
  · intro hok
    rw [status_of_allOk h ctx p o n s hok]

/-- C2, on three listeners of which the second fails once the first has raised
the counter: the dispatcher returns the error of the second. -/
theorem statusUpdated_returns_first_error_witness :
    IsFirstFailure [addHook 1, limitHook 1, addHook 1] () 7 "old" "new" 0 1 ∧
      (MultiDelayedAckHooks.AfterPacketStatusUpdated [addHook 1, limitHook 1, addHook 1]
        () 7 "old" "new" 0).1 = some "limit reached" :=
  ⟨⟨by decide, by decide, fun j hj => by interval_cases j; rfl⟩,
    ((statusUpdated_returns_first_error [addHook 1, limitHook 1, addHook 1]
      () 7 "old" "new" 0).2.1 1
        ⟨by decide, by decide, fun j hj => by interval_cases j; rfl⟩).trans (by decide)⟩

/-- Over listeners whose callbacks are total functions, `AfterPacketDeleted`
calls the callback of every listener exactly once, in list order: the calls are
those to listeners `0, ..., n-1`, there are `n` of them, and the only result is
the state the listeners leave. -/
theorem deleted_calls_every_listener (h : MultiDelayedAckHooks Ctx Pkt Err σ) (ctx : Ctx)
    (p : Pkt) (s : σ) :
    deletedCalls h ctx p s = (List.range h.length).map (fun j => Call.deleted j ctx p) ∧
      (deletedCalls h ctx p s).length = h.length ∧
      MultiDelayedAckHooks.AfterPacketDeleted h ctx p s = deletedState h ctx p s := by
  have hcalls : deletedCalls h ctx p s =
      (List.range h.length).map (fun j => Call.deleted j ctx p) := by
    unfold deletedCalls observeAll
    rw [observed_deleted h 0 ctx p s []]
    simp
  refine ⟨hcalls, ?_, deleted_eq_foldl h ctx p s⟩
  rw [hcalls]
  simp

/-! ### `AfterPacketDeleted` over callbacks that may panic -/

theorem deletedOrPanic_cons_returned (l : DeletedCallback Ctx Pkt σ)
    (rest : List (DeletedCallback Ctx Pkt σ)) (ctx : Ctx) (p : Pkt) (s s' : σ)
    (hl : l ctx p s = Outcome.returned s') :
    MultiDelayedAckHooks.AfterPacketDeletedOrPanic (l :: rest) ctx p s =
      MultiDelayedAckHooks.AfterPacketDeletedOrPanic rest ctx p s' := by
  simp only [MultiDelayedAckHooks.AfterPacketDeletedOrPanic, hl]

theorem deletedOrPanic_cons_panicked (l : DeletedCallback Ctx Pkt σ)
    (rest : List (DeletedCallback Ctx Pkt σ)) (ctx : Ctx) (p : Pkt) (s s' : σ)
    (hl : l ctx p s = Outcome.panicked s') :
    MultiDelayedAckHooks.AfterPacketDeletedOrPanic (l :: rest) ctx p s =
      Outcome.panicked s' := by
  simp only [MultiDelayedAckHooks.AfterPacketDeletedOrPanic, hl]

theorem returned_of_not_isPanic (r : Outcome σ) (hr : r.isPanic = false) :
    r = Outcome.returned r.state := by
  cases r with
  | returned s => rfl
  | panicked s => exact absurd hr (by simp [Outcome.isPanic])

theorem deletedStateBefore_cons_succ (l : DeletedCallback Ctx Pkt σ)
    (rest : List (DeletedCallback Ctx Pkt σ)) (ctx : Ctx) (p : Pkt) (s : σ) (k : Nat) :
    deletedStateBefore (l :: rest) ctx p s (k + 1) =
      deletedStateBefore rest ctx p (l ctx p s).state k := by
  simp [deletedStateBefore]

theorem panicsAt_cons_zero (l : DeletedCallback Ctx Pkt σ)
    (rest : List (DeletedCallback Ctx Pkt σ)) (ctx : Ctx) (p : Pkt) (s : σ) :
    panicsAt (l :: rest) ctx p s 0 = (l ctx p s).isPanic := by
  simp [panicsAt, deletedStateBefore]

theorem panicsAt_cons_succ (l : DeletedCallback Ctx Pkt σ)
    (rest : List (DeletedCallback Ctx Pkt σ)) (ctx : Ctx) (p : Pkt) (s : σ) (k : Nat) :
    panicsAt (l :: rest) ctx p s (k + 1) = panicsAt rest ctx p (l ctx p s).state k := by
  simp only [panicsAt, List.getElem?_cons_succ, deletedStateBefore_cons_succ]

theorem panicsAt_of_length_le (h : List (DeletedCallback Ctx Pkt σ)) (ctx : Ctx) (p : Pkt)
    (s : σ) (k : Nat) (hk : h.length ≤ k) : panicsAt h ctx p s k = false := by
  have hnone : h[k]? = none := List.getElem?_eq_none hk
  simp [panicsAt, hnone]

/-- When no callback panics in the run in list order, the observed dispatcher
returns, in the state the callbacks leave, and the log gains one call per
listener, in list order. -/
theorem observed_deletedOrPanic_of_returns (h : List (DeletedCallback Ctx Pkt σ)) (k : Nat)
    (ctx : Ctx) (p : Pkt) (s : σ) (log : List (Call Ctx Pkt))
    (hret : ∀ j, panicsAt h ctx p s j = false) :
    MultiDelayedAckHooks.AfterPacketDeletedOrPanic (observeDeletedFrom k h) ctx p (s, log) =
      Outcome.returned (deletedStateBefore h ctx p s h.length,
        log ++ (List.range h.length).map (fun j => Call.deleted (k + j) ctx p)) := by
  induction h generalizing k s log with
  | nil => simp [observeDeletedFrom, MultiDelayedAckHooks.AfterPacketDeletedOrPanic,
      deletedStateBefore]
  | cons l rest ih =>
    have h0 : (l ctx p s).isPanic = false := by
      have := hret 0
      rwa [panicsAt_cons_zero] at this
    have hl := returned_of_not_isPanic (l ctx p s) h0
    have hrest : ∀ j, panicsAt rest ctx p (l ctx p s).state j = false := by
      intro j
      have := hret (j + 1)
      rwa [panicsAt_cons_succ] at this
    have hobs : observeDeleted k l ctx p (s, log) =
        Outcome.returned ((l ctx p s).state, log ++ [Call.deleted k ctx p]) := by
      simp only [observeDeleted]
      rw [hl]
      rfl
    rw [observeDeletedFrom, deletedOrPanic_cons_returned _ _ ctx p _ _ hobs,
      ih (k + 1) _ _ hrest, List.length_cons, List.range_succ_eq_map rest.length,
      deletedStateBefore_cons_succ]
    simp [Function.comp_def, Nat.add_assoc, Nat.add_comm 1]

/-- When no callback panics in the run in list order, the dispatcher returns, in
the state the callbacks leave. -/
theorem deletedOrPanic_of_returns (h : List (DeletedCallback Ctx Pkt σ)) (ctx : Ctx) (p : Pkt)
    (s : σ) (hret : ∀ j, panicsAt h ctx p s j = false) :
    MultiDelayedAckHooks.AfterPacketDeletedOrPanic h ctx p s =
      Outcome.returned (deletedStateBefore h ctx p s h.length) := by
  induction h generalizing s with
  | nil => simp [MultiDelayedAckHooks.AfterPacketDeletedOrPanic, deletedStateBefore]
  | cons l rest ih =>
    have h0 : (l ctx p s).isPanic = false := by
      have := hret 0
      rwa [panicsAt_cons_zero] at this
    have hl := returned_of_not_isPanic (l ctx p s) h0
    have hrest : ∀ j, panicsAt rest ctx p (l ctx p s).state j = false := by
      intro j
      have := hret (j + 1)
      rwa [panicsAt_cons_succ] at this
    rw [deletedOrPanic_cons_returned l rest ctx p s _ hl, ih _ hrest, List.length_cons,
      deletedStateBefore_cons_succ]

/-- Over listeners whose callbacks are total, the dispatcher that allows panics
is the dispatcher of the interface: it returns, in the same state. -/
theorem deletedOrPanic_of_total (h : List (DelayedAckHooks Ctx Pkt Err σ)) (ctx : Ctx)
    (p : Pkt) (s : σ) :
    MultiDelayedAckHooks.AfterPacketDeletedOrPanic
        (h.map DelayedAckHooks.deletedCallback) ctx p s =
      Outcome.returned (MultiDelayedAckHooks.AfterPacketDeleted h ctx p s) := by
  induction h generalizing s with
  | nil => rfl
  | cons l rest ih =>
    rw [List.map_cons, deletedOrPanic_cons_returned _ _ ctx p s
      (l.AfterPacketDeleted ctx p s) rfl, ih, MultiDelayedAckHooks.AfterPacketDeleted]

/-- C3, as stated, fails: with listeners `[A, B, C]` where the call to `B`
panics, `AfterPacketDeleted` calls `A` and `B` only; the panic leaves the
dispatcher and `C` is never called, so the calls are two and not the three of
the list. -/
theorem deleted_panic_skips_later_listeners :
    deletedCallsOrPanic
        [(addHook 1).deletedCallback, nilListener, (addHook 1).deletedCallback] () 7 0 =
        [Call.deleted 0 () 7, Call.deleted 1 () 7] ∧
      Call.deleted 2 () 7 ∉ deletedCallsOrPanic
        [(addHook 1).deletedCallback, nilListener, (addHook 1).deletedCallback] () 7 0 ∧
      (deletedCallsOrPanic
        [(addHook 1).deletedCallback, nilListener, (addHook 1).deletedCallback] () 7 0).length ≠
        [(addHook 1).deletedCallback, nilListener, (addHook 1).deletedCallback].length ∧
      MultiDelayedAckHooks.AfterPacketDeletedOrPanic
        [(addHook 1).deletedCallback, nilListener, (addHook 1).deletedCallback] () 7 0 =
        Outcome.panicked 1 := by
  decide

/-- C3, amended: provided the callback of every listener returns (none panics)
when the listeners are run in list order, `AfterPacketDeleted` calls the
callback of every listener exactly once, in list order: the calls are those to
listeners `0, ..., n-1`, there are `n` of them, and the dispatcher returns with
no result but the state the listeners leave. -/
theorem deleted_calls_every_returning_listener (h : List (DeletedCallback Ctx Pkt σ))
    (ctx : Ctx) (p : Pkt) (s : σ) (hret : ∀ k, panicsAt h ctx p s k = false) :
    deletedCallsOrPanic h ctx p s = (List.range h.length).map (fun j => Call.deleted j ctx p) ∧
      (deletedCallsOrPanic h ctx p s).length = h.length ∧
      MultiDelayedAckHooks.AfterPacketDeletedOrPanic h ctx p s =
        Outcome.returned (deletedStateBefore h ctx p s h.length) := by
  have hcalls : deletedCallsOrPanic h ctx p s =
      (List.range h.length).map (fun j => Call.deleted j ctx p) := by
    unfold deletedCallsOrPanic
    rw [observed_deletedOrPanic_of_returns h 0 ctx p s [] hret]
    simp [Outcome.state]
  refine ⟨hcalls, ?_, deletedOrPanic_of_returns h ctx p s hret⟩
  rw [hcalls]
  simp

/-- C3 amended, on two listeners whose callbacks return: both are called, in
list order. -/
theorem deleted_calls_every_returning_listener_witness :
    (∀ k, panicsAt [(addHook 1).deletedCallback, (addHook 2).deletedCallback] () 7 0 k = false) ∧
      (deletedCallsOrPanic [(addHook 1).deletedCallback, (addHook 2).deletedCallback] () 7 0 =
          (List.range [(addHook 1).deletedCallback, (addHook 2).deletedCallback].length).map
            (fun j => Call.deleted j () 7) ∧
        (deletedCallsOrPanic
          [(addHook 1).deletedCallback, (addHook 2).deletedCallback] () 7 0).length =
          [(addHook 1).deletedCallback, (addHook 2).deletedCallback].length ∧
        MultiDelayedAckHooks.AfterPacketDeletedOrPanic
          [(addHook 1).deletedCallback, (addHook 2).deletedCallback] () 7 0 =
          Outcome.returned (deletedStateBefore
            [(addHook 1).deletedCallback, (addHook 2).deletedCallback] () 7 0
            [(addHook 1).deletedCallback, (addHook 2).deletedCallback].length)) :=
  have hret : ∀ k,
      panicsAt [(addHook 1).deletedCallback, (addHook 2).deletedCallback] () 7 0 k = false :=
    fun k => by
      by_cases hk : k < 2
      · interval_cases k <;> rfl
      · exact panicsAt_of_length_le _ _ _ _ _ (by simpa using Nat.le_of_not_lt hk)
  ⟨hret, deleted_calls_every_returning_listener
    [(addHook 1).deletedCallback, (addHook 2).deletedCallback] () 7 0 hret⟩

/-- C4: `NewMultiDelayedAckHooks` holds its arguments as given, in argument
order; so when every listener succeeds, `AfterPacketStatusUpdated` on it calls
each of them once in that order and returns `nil`. -/
theorem newMulti_keeps_listeners (ls : List (DelayedAckHooks Ctx Pkt Err σ)) (ctx : Ctx)
    (p : Pkt) (o n : String) (s : σ) :
    NewMultiDelayedAckHooks ls = ls ∧
      ((∀ j, errAt ls ctx p o n s j = none) →
        statusUpdatedCalls (NewMultiDelayedAckHooks ls) ctx p o n s =
            (List.range ls.length).map (fun j => Call.statusUpdated j ctx p o n) ∧
          (MultiDelayedAckHooks.AfterPacketStatusUpdated (NewMultiDelayedAckHooks ls)
            ctx p o n s).1 = none) := by
  refine ⟨rfl, ?_⟩
  intro hok
  constructor
  · unfold statusUpdatedCalls observeAll NewMultiDelayedAckHooks
    rw [observed_calls_of_allOk ls 0 ctx p o n s [] hok]
    simp
  · unfold NewMultiDelayedAckHooks
    rw [status_of_allOk ls ctx p o n s hok]

/-- C4, on three listeners that all succeed. -/
theorem newMulti_keeps_listeners_witness :
    (∀ j, errAt [addHook 1, limitHook 5, addHook 2] () 7 "old" "new" 0 j = none) ∧
      statusUpdatedCalls (NewMultiDelayedAckHooks [addHook 1, limitHook 5, addHook 2])
          () 7 "old" "new" 0 =
        [Call.statusUpdated 0 () 7 "old" "new", Call.statusUpdated 1 () 7 "old" "new",
          Call.statusUpdated 2 () 7 "old" "new"] ∧
      (MultiDelayedAckHooks.AfterPacketStatusUpdated
        (NewMultiDelayedAckHooks [addHook 1, limitHook 5, addHook 2]) () 7 "old" "new" 0).1 =
        none := by
  have hok : ∀ j, errAt [addHook 1, limitHook 5, addHook 2] () 7 "old" "new" 0 j = none := by
    intro j
    by_contra hne
    have hlt := errAt_lt_length _ _ _ _ _ _ _ hne
    have hlt' : j < 3 := hlt
    interval_cases j <;> exact hne (by decide)
  have hthm := (newMulti_keeps_listeners [addHook 1, limitHook 5, addHook 2]
    () 7 "old" "new" 0).2 hok
  exact ⟨hok, hthm.1, hthm.2⟩

/-- C5: the dispatcher is a relay: every call a listener receives from
`AfterPacketStatusUpdated` carries the packet, the old key and the new key of
the dispatch, in these places, and every call a listener receives from
`AfterPacketDeleted` carries the packet of the dispatch. -/
theorem dispatcher_relays_arguments (h : MultiDelayedAckHooks Ctx Pkt Err σ) (ctx : Ctx)
    (p : Pkt) (o n : String) (s : σ) :
    (∀ c ∈ statusUpdatedCalls h ctx p o n s,
        ∃ j, j < h.length ∧ c = Call.statusUpdated j ctx p o n) ∧
      (∀ c ∈ deletedCalls h ctx p s, ∃ j, j < h.length ∧ c = Call.deleted j ctx p) := by
  refine ⟨fun c hc => statusUpdatedCalls_mem h ctx p o n s c hc, ?_⟩
  intro c hc
  unfold deletedCalls observeAll at hc
  rw [observed_deleted h 0 ctx p s []] at hc
  simp only [List.nil_append, List.mem_map, List.mem_range, Nat.zero_add] at hc
  obtain ⟨j, hj, rfl⟩ := hc
  exact ⟨j, hj, rfl⟩

/-- C6, as stated, fails: with listeners `[A, B]` where `A` adds one to the
counter and succeeds and `B` fails, the dispatcher returns the error of `B` and
the counter, 0 before the dispatch, is 1 after it. -/
theorem statusUpdated_error_keeps_effects :
    (MultiDelayedAckHooks.AfterPacketStatusUpdated [addHook 1, failHook "B failed"]
        () 7 "old" "new" 0).1 = some "B failed" ∧
      (MultiDelayedAckHooks.AfterPacketStatusUpdated [addHook 1, failHook "B failed"]
        () 7 "old" "new" 0).2 = 1 ∧
      (MultiDelayedAckHooks.AfterPacketStatusUpdated [addHook 1, failHook "B failed"]
        () 7 "old" "new" 0).2 ≠ 0 := by
  decide

/-- C6, amended: when the dispatcher returns an error, some listener `i` is the
first to fail and the state is the one left by the listeners `0, ..., i` run in
list order: the dispatcher itself neither undoes nor adds an effect.  The state
is the one before the dispatch when none of these listeners changed it. -/
theorem statusUpdated_error_state (h : MultiDelayedAckHooks Ctx Pkt Err σ) (ctx : Ctx)
    (p : Pkt) (o n : String) (s : σ)
    (herr : (MultiDelayedAckHooks.AfterPacketStatusUpdated h ctx p o n s).1 ≠ none) :
    ∃ i, IsFirstFailure h ctx p o n s i ∧
      (MultiDelayedAckHooks.AfterPacketStatusUpdated h ctx p o n s).2 =
        stateBefore h ctx p o n s (i + 1) ∧
      ((∀ j, j ≤ i → stateBefore h ctx p o n s (j + 1) = stateBefore h ctx p o n s j) →
        (MultiDelayedAckHooks.AfterPacketStatusUpdated h ctx p o n s).2 = s) := by
  have hex : ∃ i, errAt h ctx p o n s i ≠ none := by
    by_contra hex
    have hok : ∀ j, errAt h ctx p o n s j = none := by
      intro j
      by_contra hj
      exact hex ⟨j, hj⟩
    rw [status_of_allOk h ctx p o n s hok] at herr
    exact herr rfl
  obtain ⟨i, hf⟩ := exists_firstFailure h ctx p o n s hex
  have hres := status_of_firstFailure h ctx p o n s i hf
  refine ⟨i, hf, by rw [hres], ?_⟩
  intro hsame
  have hall : ∀ j, j ≤ i + 1 → stateBefore h ctx p o n s j = s := by
    intro j
    induction j with
    | zero => intro _; exact stateBefore_zero h ctx p o n s
    | succ j ihj =>
      intro hj
      rw [hsame j (by omega)]
      exact ihj (by omega)
  rw [hres]
  exact hall (i + 1) (Nat.le_refl _)

/-- C6 amended, on the listeners `[A, B]` where `A` adds one and `B` fails. -/
theorem statusUpdated_error_state_witness :
    (MultiDelayedAckHooks.AfterPacketStatusUpdated [addHook 1, failHook "B failed"]
        () 7 "old" "new" 0).1 ≠ none ∧
      ∃ i, IsFirstFailure [addHook 1, failHook "B failed"] () 7 "old" "new" 0 i ∧
        (MultiDelayedAckHooks.AfterPacketStatusUpdated [addHook 1, failHook "B failed"]
          () 7 "old" "new" 0).2 =
          stateBefore [addHook 1, failHook "B failed"] () 7 "old" "new" 0 (i + 1) ∧
        ((∀ j, j ≤ i →
            stateBefore [addHook 1, failHook "B failed"] () 7 "old" "new" 0 (j + 1) =
              stateBefore [addHook 1, failHook "B failed"] () 7 "old" "new" 0 j) →
          (MultiDelayedAckHooks.AfterPacketStatusUpdated [addHook 1, failHook "B failed"]
            () 7 "old" "new" 0).2 = 0) :=
  ⟨by decide,
    statusUpdated_error_state [addHook 1, failHook "B failed"] () 7 "old" "new" 0 (by decide)⟩

/-! ## A dispatcher of dispatchers -/

theorem status_singleton (l : DelayedAckHooks Ctx Pkt Err σ) (ctx : Ctx) (p : Pkt)
    (o n : String) (s : σ) :
    MultiDelayedAckHooks.AfterPacketStatusUpdated [l] ctx p o n s =
      l.AfterPacketStatusUpdated ctx p o n s := by
  by_cases hl : (l.AfterPacketStatusUpdated ctx p o n s).1 = none
  · rw [status_cons_ok l [] ctx p o n s hl, MultiDelayedAckHooks.AfterPacketStatusUpdated]
    exact Prod.ext hl.symm rfl
  · exact status_cons_err l [] ctx p o n s hl

theorem status_append_ok (xs ys : List (DelayedAckHooks Ctx Pkt Err σ)) (ctx : Ctx) (p : Pkt)
    (o n : String) (s : σ)
    (hok : (MultiDelayedAckHooks.AfterPacketStatusUpdated xs ctx p o n s).1 = none) :
    MultiDelayedAckHooks.AfterPacketStatusUpdated (xs ++ ys) ctx p o n s =
      MultiDelayedAckHooks.AfterPacketStatusUpdated ys ctx p o n
        (MultiDelayedAckHooks.AfterPacketStatusUpdated xs ctx p o n s).2 := by
  induction xs generalizing s with
  | nil => rfl
  | cons l rest ih =>
    by_cases hl : (l.AfterPacketStatusUpdated ctx p o n s).1 = none
    · rw [status_cons_ok l rest ctx p o n s hl] at hok ⊢
      rw [List.cons_append, status_cons_ok l (rest ++ ys) ctx p o n s hl]
      exact ih _ hok
    · rw [status_cons_err l rest ctx p o n s hl] at hok
      exact absurd hok hl

theorem status_append_err (xs ys : List (DelayedAckHooks Ctx Pkt Err σ)) (ctx : Ctx) (p : Pkt)
    (o n : String) (s : σ)
    (herr : (MultiDelayedAckHooks.AfterPacketStatusUpdated xs ctx p o n s).1 ≠ none) :
    MultiDelayedAckHooks.AfterPacketStatusUpdated (xs ++ ys) ctx p o n s =
      MultiDelayedAckHooks.AfterPacketStatusUpdated xs ctx p o n s := by
  induction xs generalizing s with
  | nil => exact absurd rfl herr
  | cons l rest ih =>
    by_cases hl : (l.AfterPacketStatusUpdated ctx p o n s).1 = none
    · rw [status_cons_ok l rest ctx p o n s hl] at herr ⊢
      rw [List.cons_append, status_cons_ok l (rest ++ ys) ctx p o n s hl]
      exact ih _ herr
    · rw [List.cons_append, status_cons_err l (rest ++ ys) ctx p o n s hl,
        status_cons_err l rest ctx p o n s hl]

/-- The dispatcher of two dispatchers does on every state what the dispatcher of
the concatenated list does: same error, same state. -/
theorem status_nested_eq_append (xs ys : List (DelayedAckHooks Ctx Pkt Err σ)) (ctx : Ctx)
    (p : Pkt) (o n : String) (s : σ) :
    MultiDelayedAckHooks.AfterPacketStatusUpdated (nestedHooks xs ys) ctx p o n s =
      MultiDelayedAckHooks.AfterPacketStatusUpdated (xs ++ ys) ctx p o n s := by
  unfold nestedHooks NewMultiDelayedAckHooks
  by_cases hx : (MultiDelayedAckHooks.AfterPacketStatusUpdated xs ctx p o n s).1 = none
  · have hx' : ((MultiDelayedAckHooks.toDelayedAckHooks xs).AfterPacketStatusUpdated
        ctx p o n s).1 = none := hx
    rw [status_cons_ok _ _ ctx p o n s hx', status_singleton, status_append_ok xs ys ctx p o n s hx]
    rfl
  · have hx' : ((MultiDelayedAckHooks.toDelayedAckHooks xs).AfterPacketStatusUpdated
        ctx p o n s).1 ≠ none := hx
    rw [status_cons_err _ _ ctx p o n s hx', status_append_err xs ys ctx p o n s hx]
    rfl

theorem deleted_append (xs ys : List (DelayedAckHooks Ctx Pkt Err σ)) (ctx : Ctx) (p : Pkt)
    (s : σ) :
    MultiDelayedAckHooks.AfterPacketDeleted (xs ++ ys) ctx p s =
      MultiDelayedAckHooks.AfterPacketDeleted ys ctx p
        (MultiDelayedAckHooks.AfterPacketDeleted xs ctx p s) := by
  induction xs generalizing s with
  | nil => rfl
  | cons l rest ih =>
    rw [List.cons_append, MultiDelayedAckHooks.AfterPacketDeleted,
      MultiDelayedAckHooks.AfterPacketDeleted, ih]

/-- The dispatcher of two dispatchers leaves, on `AfterPacketDeleted`, the state
the dispatcher of the concatenated list leaves. -/
theorem deleted_nested_eq_append (xs ys : List (DelayedAckHooks Ctx Pkt Err σ)) (ctx : Ctx)
    (p : Pkt) (s : σ) :
    MultiDelayedAckHooks.AfterPacketDeleted (nestedHooks xs ys) ctx p s =
      MultiDelayedAckHooks.AfterPacketDeleted (xs ++ ys) ctx p s := by
  rw [deleted_append]
  rfl

/-- Observing a concatenated list is observing its two parts, the second named
from where the first ends. -/
theorem observeFrom_append (k : Nat) (xs ys : List (DelayedAckHooks Ctx Pkt Err σ)) :
    observeFrom k (xs ++ ys) = observeFrom k xs ++ observeFrom (k + xs.length) ys := by
  induction xs generalizing k with
  | nil => rfl
  | cons l rest ih =>
    rw [List.cons_append, observeFrom, observeFrom, ih (k + 1), List.length_cons,
      List.cons_append, Nat.add_assoc, Nat.add_comm 1]

/-- C13: nested dispatchers flatten.  For all listener lists `xs`, `ys` and
every event, the dispatcher of the two dispatchers over `xs` and over `ys` and
the dispatcher over `xs ++ ys` return the same error (and leave the same state)
and make the same calls to the leaf listeners in the same order, for
`AfterPacketStatusUpdated`, where a failure in `xs` also keeps `ys` from being
called, and for `AfterPacketDeleted`. -/
theorem nested_dispatchers_flatten (xs ys : List (DelayedAckHooks Ctx Pkt Err σ)) (ctx : Ctx)
    (p : Pkt) (o n : String) (s : σ) :
    MultiDelayedAckHooks.AfterPacketStatusUpdated (nestedHooks xs ys) ctx p o n s =
        MultiDelayedAckHooks.AfterPacketStatusUpdated (NewMultiDelayedAckHooks (xs ++ ys))
          ctx p o n s ∧
      nestedStatusUpdatedCalls xs ys ctx p o n s =
        statusUpdatedCalls (NewMultiDelayedAckHooks (xs ++ ys)) ctx p o n s ∧
      MultiDelayedAckHooks.AfterPacketDeleted (nestedHooks xs ys) ctx p s =
        MultiDelayedAckHooks.AfterPacketDeleted (NewMultiDelayedAckHooks (xs ++ ys)) ctx p s ∧
      nestedDeletedCalls xs ys ctx p s =
        deletedCalls (NewMultiDelayedAckHooks (xs ++ ys)) ctx p s := by
  refine ⟨status_nested_eq_append xs ys ctx p o n s, ?_,
    deleted_nested_eq_append xs ys ctx p s, ?_⟩
  · unfold nestedStatusUpdatedCalls nestedObserved statusUpdatedCalls observeAll
      NewMultiDelayedAckHooks
    rw [status_nested_eq_append, observeFrom_append, Nat.zero_add]
  · unfold nestedDeletedCalls nestedObserved deletedCalls observeAll NewMultiDelayedAckHooks
    rw [deleted_nested_eq_append, observeFrom_append, Nat.zero_add]

/-- C13, on `xs = [A, B]` with `B` failing and `ys = [C]`: nested or flat, the
calls are those to `A` and `B`, the listener `C` across the boundary is not
called, and the error is the one of `B`. -/
theorem nested_dispatchers_flatten_witness :
    nestedStatusUpdatedCalls [addHook 1, failHook "B failed"] [addHook 1] () 7 "old" "new" 0 =
        [Call.statusUpdated 0 () 7 "old" "new", Call.statusUpdated 1 () 7 "old" "new"] ∧
      MultiDelayedAckHooks.AfterPacketStatusUpdated
          (nestedHooks [addHook 1, failHook "B failed"] [addHook 1]) () 7 "old" "new" 0 =
        (some "B failed", 1) :=
  ⟨((nested_dispatchers_flatten [addHook 1, failHook "B failed"] [addHook 1]
      () 7 "old" "new" 0).2.1).trans (by decide),
    ((nested_dispatchers_flatten [addHook 1, failHook "B failed"] [addHook 1]
      () 7 "old" "new" 0).1).trans (by decide)⟩

end Delayedack

namespace Lockup

open Sdk

/-! ## Coins -/

theorem isAllPositive_singleton (c : Coin) :
    Coins.IsAllPositive [c] = true ↔ 0 < c.Amount := by
  simp [Coins.IsAllPositive, Coin.IsPositive]

theorem len_eq_one_iff (coins : Coins) : Coins.Len coins = 1 ↔ ∃ c, coins = [c] := by
  simp [Coins.Len, List.length_eq_one]

/-! ## The claims about the lockup messages -/

/-- C7: `MsgLockTokens.ValidateBasic` returns `nil` exactly when the owner
decodes as a bech32 address, the duration is positive, and the coins are one
coin of positive amount; a zero duration, an empty coin set, two or more coins,
and a single coin of zero or negative amount are each rejected. -/
theorem lockTokens_validateBasic_iff (AccAddressFromBech32 : String → Except String AccAddress)
    (m : MsgLockTokens) :
    (MsgLockTokens.ValidateBasic AccAddressFromBech32 m = none ↔
        (∃ a, AccAddressFromBech32 m.Owner = Except.ok a) ∧ 0 < m.Duration ∧
          ∃ c, m.Coins = [c] ∧ 0 < c.Amount) ∧
      (m.Duration = 0 → MsgLockTokens.ValidateBasic AccAddressFromBech32 m ≠ none) ∧
      (m.Coins = [] → MsgLockTokens.ValidateBasic AccAddressFromBech32 m ≠ none) ∧
      (2 ≤ m.Coins.length → MsgLockTokens.ValidateBasic AccAddressFromBech32 m ≠ none) ∧
      (∀ c, m.Coins = [c] → c.Amount ≤ 0 →
        MsgLockTokens.ValidateBasic AccAddressFromBech32 m ≠ none) := by
  have hiff : MsgLockTokens.ValidateBasic AccAddressFromBech32 m = none ↔
      (∃ a, AccAddressFromBech32 m.Owner = Except.ok a) ∧ 0 < m.Duration ∧
        ∃ c, m.Coins = [c] ∧ 0 < c.Amount := by
    unfold MsgLockTokens.ValidateBasic
    cases hdec : AccAddressFromBech32 m.Owner with
    | error e => simp
    | ok a =>
      by_cases hd : m.Duration ≤ 0
      · simp [hd, not_lt.mpr hd]
      · by_cases hlen : Coins.Len m.Coins = 1
        · obtain ⟨c, hc⟩ := (len_eq_one_iff m.Coins).mp hlen
          have hpos := isAllPositive_singleton c
          by_cases hall : Coins.IsAllPositive [c] = true
          · simp [hd, hc, hall, hpos.mp hall, Coins.Len, lt_of_not_ge hd]
          · have hnp : ¬ 0 < c.Amount := fun h => hall (hpos.mpr h)
            simp [hd, hc, hall, hnp, Coins.Len]
        · have hne : ¬ ∃ c, m.Coins = [c] := fun h => hlen ((len_eq_one_iff m.Coins).mpr h)
          have hne' : ¬ ∃ c, m.Coins = [c] ∧ 0 < c.Amount := fun ⟨c, hc, _⟩ => hne ⟨c, hc⟩
          simp [hd, hlen, hne']
  refine ⟨hiff, ?_, ?_, ?_, ?_⟩
  · intro hz hnone
    have := (hiff.mp hnone).2.1
    omega
  · intro he hnone
    obtain ⟨c, hc, _⟩ := (hiff.mp hnone).2.2
    rw [he] at hc
    exact absurd hc (by simp)
  · intro h2 hnone
    obtain ⟨c, hc, _⟩ := (hiff.mp hnone).2.2
    rw [hc] at h2
    simp at h2
  · intro c hc hle hnone
    obtain ⟨c', hc', hpos⟩ := (hiff.mp hnone).2.2
    rw [hc] at hc'
    injection hc' with hcc _
    subst hcc
    omega

/-- C8: `MsgBeginUnlocking.ValidateBasic` returns `nil` exactly when the owner
decodes as a bech32 address, the id is not 0, and the coins are empty or one
coin of positive amount; the empty coin set is accepted, two or more coins and
a single coin of zero or negative amount are rejected. -/
theorem beginUnlocking_validateBasic_iff
    (AccAddressFromBech32 : String → Except String AccAddress) (m : MsgBeginUnlocking) :
    (MsgBeginUnlocking.ValidateBasic AccAddressFromBech32 m = none ↔
        (∃ a, AccAddressFromBech32 m.Owner = Except.ok a) ∧ m.ID ≠ 0 ∧
          (m.Coins = [] ∨ ∃ c, m.Coins = [c] ∧ 0 < c.Amount)) ∧
      ((∃ a, AccAddressFromBech32 m.Owner = Except.ok a) → m.ID ≠ 0 → m.Coins = [] →
        MsgBeginUnlocking.ValidateBasic AccAddressFromBech32 m = none) ∧
      (2 ≤ m.Coins.length → MsgBeginUnlocking.ValidateBasic AccAddressFromBech32 m ≠ none) ∧
      (∀ c, m.Coins = [c] → c.Amount ≤ 0 →
        MsgBeginUnlocking.ValidateBasic AccAddressFromBech32 m ≠ none) := by
  have hiff : MsgBeginUnlocking.ValidateBasic AccAddressFromBech32 m = none ↔
      (∃ a, AccAddressFromBech32 m.Owner = Except.ok a) ∧ m.ID ≠ 0 ∧
        (m.Coins = [] ∨ ∃ c, m.Coins = [c] ∧ 0 < c.Amount) := by
    unfold MsgBeginUnlocking.ValidateBasic
    cases hdec : AccAddressFromBech32 m.Owner with
    | error e => simp
    | ok a =>
      by_cases hid : m.ID = 0
      · simp [hid]
      · rcases hcoins : m.Coins with _ | ⟨c, _ | ⟨c2, rest⟩⟩
        · simp [hid, Coins.Len, Coins.Empty]
        · by_cases hpos : 0 < c.Amount
          · simp [hid, Coins.Len, Coins.Empty, Coins.IsAllPositive, Coin.IsPositive, hpos]
          · simp [hid, Coins.Len, Coins.Empty, Coins.IsAllPositive, Coin.IsPositive, hpos]
        · simp [hid, Coins.Len]
  refine ⟨hiff, ?_, ?_, ?_⟩
  · intro hown hid he
    exact hiff.mpr ⟨hown, hid, Or.inl he⟩
  · intro h2 hnone
    rcases (hiff.mp hnone).2.2 with he | ⟨c, hc, _⟩
    · rw [he] at h2
      simp at h2
    · rw [hc] at h2
      simp at h2
  · intro c hc hle hnone
    rcases (hiff.mp hnone).2.2 with he | ⟨c', hc', hpos⟩
    · rw [hc] at he
      exact absurd he (by simp)
    · rw [hc] at hc'
      injection hc' with hcc _
      subst hcc
      omega

/-- C9, evaluated on the code: with a valid owner and no coins,
`MsgForceUnlock.ValidateBasic` rejects the id 0 with `ErrInvalidRequest` and
accepts the id 1, which is not bigger than 1. -/
theorem forceUnlock_accepts_id_one :
    MsgForceUnlock.ValidateBasic sampleBech32 sampleDenom
        { Owner := "dym1owner", ID := 1, Coins := [] } = none ∧
      MsgForceUnlock.ValidateBasic sampleBech32 sampleDenom
        { Owner := "dym1owner", ID := 0, Coins := [] } =
        some (Error.wrap Registered.ErrInvalidRequest "lock id should be bigger than 1 (%s)") := by
  decide

/-- C11: `MsgExtendLockup.ValidateBasic` returns `nil` exactly when the owner
decodes as a bech32 address, the id is not 0, and the duration is positive; a
zero duration is rejected as well as a negative one. -/
theorem extendLockup_validateBasic_iff
    (AccAddressFromBech32 : String → Except String AccAddress) (m : MsgExtendLockup) :
    (MsgExtendLockup.ValidateBasic AccAddressFromBech32 m = none ↔
        (∃ a, AccAddressFromBech32 m.Owner = Except.ok a) ∧ m.ID ≠ 0 ∧ 0 < m.Duration) ∧
      (m.Duration = 0 → MsgExtendLockup.ValidateBasic AccAddressFromBech32 m ≠ none) ∧
      (m.Duration < 0 → MsgExtendLockup.ValidateBasic AccAddressFromBech32 m ≠ none) := by
  have hiff : MsgExtendLockup.ValidateBasic AccAddressFromBech32 m = none ↔
      (∃ a, AccAddressFromBech32 m.Owner = Except.ok a) ∧ m.ID ≠ 0 ∧ 0 < m.Duration := by
    unfold MsgExtendLockup.ValidateBasic
    cases hdec : AccAddressFromBech32 m.Owner with
    | error e => simp
    | ok a =>
      by_cases hid : m.ID = 0
      · simp [hid]
      · by_cases hd : m.Duration ≤ 0
        · simp [hid, hd, not_lt.mpr hd]
        · simp [hid, hd, lt_of_not_ge hd]
  refine ⟨hiff, ?_, ?_⟩
  · intro hz hnone
    have := (hiff.mp hnone).2.2
    omega
  · intro hneg hnone
    have := (hiff.mp hnone).2.2
    omega

/-- C12: `MsgForceUnlock.ValidateBasic` returns `nil` exactly when the owner
decodes as a bech32 address, the id is at least 1, and the coins are a valid
coin set.  An owner that does not decode gives `ErrInvalidAddress` whatever the
rest; otherwise the id 0 gives `ErrInvalidRequest` whatever the coins; otherwise
an invalid coin set gives `ErrInvalidCoins`.  No limit of one denomination is
imposed: two positive coins of well-formed, increasing denominations pass. -/
theorem forceUnlock_validateBasic_iff
    (AccAddressFromBech32 : String → Except String AccAddress) (validDenom : String → Bool)
    (m : MsgForceUnlock) :
    (MsgForceUnlock.ValidateBasic AccAddressFromBech32 validDenom m = none ↔
        (∃ a, AccAddressFromBech32 m.Owner = Except.ok a) ∧ 1 ≤ m.ID ∧
          Coins.IsValid validDenom m.Coins = true) ∧
      ((¬ ∃ a, AccAddressFromBech32 m.Owner = Except.ok a) →
        ∃ description, MsgForceUnlock.ValidateBasic AccAddressFromBech32 validDenom m =
          some (Error.wrap Registered.ErrInvalidAddress description)) ∧
      ((∃ a, AccAddressFromBech32 m.Owner = Except.ok a) → m.ID = 0 →
        ∃ description, MsgForceUnlock.ValidateBasic AccAddressFromBech32 validDenom m =
          some (Error.wrap Registered.ErrInvalidRequest description)) ∧
      ((∃ a, AccAddressFromBech32 m.Owner = Except.ok a) → 1 ≤ m.ID →
        Coins.IsValid validDenom m.Coins = false →
        ∃ description, MsgForceUnlock.ValidateBasic AccAddressFromBech32 validDenom m =
          some (Error.wrap Registered.ErrInvalidCoins description)) ∧
      (∀ c d : Coin, m.Coins = [c, d] →
        (∃ a, AccAddressFromBech32 m.Owner = Except.ok a) → 1 ≤ m.ID →
        validDenom c.Denom = true → validDenom d.Denom = true →
        c.Denom.toList < d.Denom.toList → 0 < c.Amount → 0 < d.Amount →
        MsgForceUnlock.ValidateBasic AccAddressFromBech32 validDenom m = none) := by
  have hiff : MsgForceUnlock.ValidateBasic AccAddressFromBech32 validDenom m = none ↔
      (∃ a, AccAddressFromBech32 m.Owner = Except.ok a) ∧ 1 ≤ m.ID ∧
        Coins.IsValid validDenom m.Coins = true := by
    unfold MsgForceUnlock.ValidateBasic
    cases hdec : AccAddressFromBech32 m.Owner with
    | error e => simp
    | ok a =>
      by_cases hid : m.ID ≤ 0
      · have : ¬ 1 ≤ m.ID := by omega
        simp [hid, this]
      · have : 1 ≤ m.ID := by omega
        by_cases hv : Coins.IsValid validDenom m.Coins = true
        · simp [hid, this, hv]
        · simp [hid, this, hv]
  refine ⟨hiff, ?_, ?_, ?_, ?_⟩
  · intro hown
    unfold MsgForceUnlock.ValidateBasic
    cases hdec : AccAddressFromBech32 m.Owner with
    | error e => exact ⟨_, rfl⟩
    | ok a => exact absurd ⟨a, hdec⟩ hown
  · rintro ⟨a, ha⟩ hid
    unfold MsgForceUnlock.ValidateBasic
    rw [ha]
    simp [hid]
  · rintro ⟨a, ha⟩ hid hv
    have hid' : ¬ m.ID ≤ 0 := by omega
    unfold MsgForceUnlock.ValidateBasic
    rw [ha]
    simp [hid', hv]
  · intro c d hcoins hown hid hc hd hlt hcpos hdpos
    refine hiff.mpr ⟨hown, hid, ?_⟩
    have hne : c.Denom ≠ d.Denom := by
      intro heq
      rw [heq] at hlt
      exact lt_irrefl _ hlt
    have hnlt : ¬ d.Denom.toList < c.Denom.toList := fun h => lt_asymm hlt h
    rw [hcoins]
    simp [Coins.IsValid, Coins.validateRest, Coin.IsPositive, hc, hd, hcpos, hdpos, hnlt,
      Ne.symm hne]
    exact le_of_lt hlt

/-- C12, on a message with a valid owner, the id 1 and two coins: it is accepted
by `MsgForceUnlock.ValidateBasic`. -/
theorem forceUnlock_validateBasic_iff_witness :
    MsgForceUnlock.ValidateBasic sampleBech32 sampleDenom
      { Owner := "dym1owner", ID := 1,
        Coins := [{ Denom := "adym", Amount := 10 }, { Denom := "bdym", Amount := 5 }] } =
      none :=
  (forceUnlock_validateBasic_iff sampleBech32 sampleDenom
    { Owner := "dym1owner", ID := 1,
      Coins := [{ Denom := "adym", Amount := 10 }, { Denom := "bdym", Amount := 5 }] }).2.2.2.2
    { Denom := "adym", Amount := 10 } { Denom := "bdym", Amount := 5 } rfl
    ⟨[1, 2, 3], rfl⟩ (by decide) (by decide) (by decide) (by decide) (by decide)
    (by decide)

end Lockup

namespace Ante

open Sdk

/-- C10: `HandlerOptions.validate` returns `nil` exactly when the seven required
keepers and handlers are not `nil`; any error it returns wraps `ErrLogic`; and
two option values that agree on the seven required fields validate alike,
whatever their other fields hold. -/
theorem validate_iff_required (options : HandlerOptions) :
    (options.validate = none ↔
        options.AccountKeeper ≠ none ∧ options.BankKeeper ≠ none ∧
          options.SignModeHandler ≠ none ∧ options.FeeMarketKeeper ≠ none ∧
          options.EvmKeeper ≠ none ∧ options.TxFeesKeeper ≠ none ∧
          options.LightClientKeeper ≠ none) ∧
      (options.validate ≠ none →
        ∃ description, options.validate = some (Error.wrap Registered.ErrLogic description)) ∧
      (∀ other : HandlerOptions,
        other.AccountKeeper = options.AccountKeeper → other.BankKeeper = options.BankKeeper →
        other.SignModeHandler = options.SignModeHandler →
        other.FeeMarketKeeper = options.FeeMarketKeeper →
        other.EvmKeeper = options.EvmKeeper → other.TxFeesKeeper = options.TxFeesKeeper →
        other.LightClientKeeper = options.LightClientKeeper →
        other.validate = options.validate) := by
  refine ⟨?_, ?_, ?_⟩
  · unfold HandlerOptions.validate
    constructor
    · intro hv
      split_ifs at hv with h1 h2 h3 h4 h5 h6 h7
      exact ⟨h1, h2, h3, h4, h5, h6, h7⟩
    · rintro ⟨h1, h2, h3, h4, h5, h6, h7⟩
      simp [h1, h2, h3, h4, h5, h6, h7]
  · intro _
    unfold HandlerOptions.validate
    split_ifs <;> first | exact ⟨_, rfl⟩ | (exfalso; simp_all [HandlerOptions.validate])
  · intro other e1 e2 e3 e4 e5 e6 e7
    unfold HandlerOptions.validate
    rw [e1, e2, e3, e4, e5, e6, e7]

/-- C10, on two option values: one with every required field set and all other
fields empty, which validates, and one without a light client keeper, which is
rejected with `ErrLogic`. -/
theorem validate_iff_required_witness :
    HandlerOptions.validate
        { AccountKeeper := some 1, BankKeeper := some 2, IBCKeeper := none,
          FeeMarketKeeper := some 3, EvmKeeper := some 4, FeegrantKeeper := none,
          TxFeesKeeper := some 5, SignModeHandler := some 6, MaxTxGasWanted := 0,
          ExtensionOptionChecker := none, RollappKeeper := 0,
          LightClientKeeper := some 7 } = none :=
  (validate_iff_required
    { AccountKeeper := some 1, BankKeeper := some 2, IBCKeeper := none,
      FeeMarketKeeper := some 3, EvmKeeper := some 4, FeegrantKeeper := none,
      TxFeesKeeper := some 5, SignModeHandler := some 6, MaxTxGasWanted := 0,
      ExtensionOptionChecker := none, RollappKeeper := 0,
      LightClientKeeper := some 7 }).1.mpr (by decide)

end Ante
